import Mathlib

/-!
Verification of the goa HTTP design-expression engine.

The development shallowly embeds the two source files of the repository:
`expr` (HTTPServiceExpr with Schemes, Endpoint, CanonicalEndpoint,
URITemplate, FullPaths, Parent, Validate) and `dsl/api.go` (the API,
Server, ... builder functions over the evaluation context stack).
Go slices become `List`, Go `nil`-able pointers become `Option`,
recursion through the parent-service chain is made total with an explicit
fuel argument (`none` = fuel exhausted, i.e. the Go recursion would not
have terminated at that depth), and Go panics are `Except.error`.
-/

namespace Goa

/-! ### Models of the path helpers

`path.Clean` and `path.Join` model the Go standard library `path` package;
`httppathClean` models the external `github.com/dimfeld/httppath.Clean`
HTTP path cleaner used by the source (lexical cleaning that keeps the path
rooted and preserves a trailing slash, and treats template variables such
as `{id}` as ordinary path characters). -/

/-- Split a character list at every occurrence of `sep` (Go `strings.Split`). -/
def splitCharsAux (sep : Char) : List Char → List Char → List String
  | cur, [] => [String.mk cur.reverse]
  | cur, c :: cs =>
    if c = sep then String.mk cur.reverse :: splitCharsAux sep [] cs
    else splitCharsAux sep (c :: cur) cs

/-- Split a string on a separator character. -/
def splitOnChar (sep : Char) (s : String) : List String :=
  splitCharsAux sep [] s.data

/-- Does the string begin with `'/'`? (Go `path[0] == '/'`.) -/
def beginsWithSlash (s : String) : Bool :=
  match s.data with
  | '/' :: _ => true
  | _ => false

/-- Does the string begin with `"//"`? (Go `strings.HasPrefix(p, "//")`.) -/
def beginsWith2Slash (s : String) : Bool :=
  match s.data with
  | '/' :: '/' :: _ => true
  | _ => false

/-- Does the string end with `'/'`? -/
def endsWithSlash (s : String) : Bool :=
  match s.data.getLast? with
  | some '/' => true
  | _ => false

/-- Stack-based processing of the `/`-separated components of a path:
drops empty and `"."` components, resolves `".."` against the stack
(discarding it at the root of a rooted path, keeping it for relative
paths).  This is the component-level description of the lexical algorithm
of Go `path.Clean`. -/
def cleanStack (rooted : Bool) : List String → List String → List String
  | acc, [] => acc.reverse
  | acc, c :: cs =>
    if c = "" ∨ c = "." then cleanStack rooted acc cs
    else if c = ".." then
      match acc with
      | [] => if rooted then cleanStack rooted [] cs else cleanStack rooted [".."] cs
      | a :: as =>
        if a = ".." then cleanStack rooted (".." :: a :: as) cs
        else cleanStack rooted as cs
    else cleanStack rooted (c :: acc) cs

/-- Model of Go `path.Clean`: lexically shortest equivalent path,
`"."` for the empty result of a relative path, `"/"` for the empty
result of a rooted path. -/
def pathClean (p : String) : String :=
  if p = "" then "."
  else
    let rooted := beginsWithSlash p
    let comps := cleanStack rooted [] (splitOnChar '/' p)
    if comps = [] then (if rooted then "/" else ".")
    else (if rooted then "/" else "") ++ String.intercalate "/" comps

/-- Model of the two-argument Go `path.Join`: joins the elements starting
at the first non-empty one with `"/"` and cleans the result; `""` when
every element is empty. -/
def pathJoin (a b : String) : String :=
  if a ≠ "" then pathClean (a ++ "/" ++ b)
  else if b ≠ "" then pathClean b
  else ""

/-- Model of the one-argument Go `path.Join`: cleans its argument, `""`
when the argument is empty. -/
def pathJoin1 (a : String) : String :=
  if a ≠ "" then pathClean a else ""

/-- Model of the external `github.com/dimfeld/httppath.Clean` used by the
source: like `pathClean` but the result is always rooted (a missing
leading `/` is added) and a trailing slash of the input is preserved. -/
def httppathClean (p : String) : String :=
  if p = "" then "/"
  else
    let q := if beginsWithSlash p then p else "/" ++ p
    let comps := cleanStack true [] (splitOnChar '/' q)
    let base := if comps = [] then "/" else "/" ++ String.intercalate "/" comps
    if endsWithSlash q ∧ base ≠ "/" then base ++ "/" else base

/-! ### The expression tree (`expr` package)

Only the fields read by the functions under verification are modelled;
in particular `ServiceExpr` carries the `Name` and the `Servers` list
(used by `Name()` and `Schemes`), and `HTTPEndpointExpr.MethodName`
stands for the name of the backing method expression, which is what the
Go `(*HTTPEndpointExpr).Name()` accessor returns. -/

/-- A `ServerExpr` is a URL naming an API host. -/
structure ServerExpr where
  URL : String
deriving DecidableEq

/-- The generic service expression backing an HTTP service. -/
structure ServiceExpr where
  Name : String
  Servers : List ServerExpr
deriving DecidableEq

/-- A route: method and path template. -/
structure RouteExpr where
  Method : String
  Path : String
deriving DecidableEq

/-- An HTTP endpoint: the name of its method and its routes. -/
structure HTTPEndpointExpr where
  MethodName : String
  Routes : List RouteExpr
deriving DecidableEq

/-- An HTTP service expression (the fields used by the verified code). -/
structure HTTPServiceExpr where
  ServiceExpr : ServiceExpr
  Paths : List String
  ParentName : String
  CanonicalEndpointName : String
  HTTPEndpoints : List HTTPEndpointExpr
deriving DecidableEq

/-- `Root.API.HTTP`: the API root path and the set of declared HTTP
services. -/
structure HTTPExpr where
  Path : String
  Services : List HTTPServiceExpr
deriving DecidableEq

/-- `(*HTTPServiceExpr).Name()` delegates to the backing service. -/
def HTTPServiceExpr.Name (svc : HTTPServiceExpr) : String :=
  svc.ServiceExpr.Name

/-- `(*HTTPExpr).Service(name)`: first declared service with that name,
`none` when there is none. -/
def HTTPExpr.Service (root : HTTPExpr) (name : String) : Option HTTPServiceExpr :=
  root.Services.find? (fun s => s.Name == name)

/-- `(*HTTPServiceExpr).Endpoint(name)`: first endpoint with that name,
`none` when there is none. -/
def HTTPServiceExpr.Endpoint (svc : HTTPServiceExpr) (name : String) : Option HTTPEndpointExpr :=
  svc.HTTPEndpoints.find? (fun a => a.MethodName == name)

/-- `(*HTTPServiceExpr).CanonicalEndpoint()`: the endpoint named by
`CanonicalEndpointName`, defaulting to `"show"` when that field is empty. -/
def HTTPServiceExpr.CanonicalEndpoint (svc : HTTPServiceExpr) : Option HTTPEndpointExpr :=
  let name := if svc.CanonicalEndpointName = "" then "show" else svc.CanonicalEndpointName
  svc.Endpoint name

/-- `(*HTTPServiceExpr).Parent()`: the service named by `ParentName`,
`none` when `ParentName` is empty or does not resolve. -/
def HTTPServiceExpr.Parent (root : HTTPExpr) (svc : HTTPServiceExpr) : Option HTTPServiceExpr :=
  if svc.ParentName ≠ "" then root.Service svc.ParentName else none

/-! ### `Schemes`

`url.Parse` of the Go standard library is modelled by an abstract
`parse` function: `some u` models a successful parse returning the URL
value `u` with a `nil` error, `none` models a failed parse, in which Go
`url.Parse` returns a `nil` `*URL` together with the error.  In the
source the scheme is recorded inside the branch taken when the error is
non-nil, where the URL pointer is `nil`; reading `u.Scheme` there is a
nil-pointer dereference, modelled as `Except.error`. -/

/-- The URL value produced by a successful `url.Parse`. -/
structure URLValue where
  Scheme : String
deriving DecidableEq

/-- Insert a string into an ascending list, keeping it sorted
(used to model `sort.Strings` on the collected scheme set). -/
def insertSorted (s : String) : List String → List String
  | [] => [s]
  | t :: ts => if s ≤ t then s :: t :: ts else t :: insertSorted s ts

/-- Model of `sort.Strings`. -/
def sortStrings (l : List String) : List String :=
  l.foldr insertSorted []

/-- `(*HTTPServiceExpr).Schemes()`.  The loop walks the backing service's
servers; a successfully parsed URL (`err == nil`) takes the branch that
records nothing, a failed parse takes the `err != nil` branch whose body
reads the `Scheme` field of the `nil` URL — a panic, modelled as
`Except.error`.  After the loop the collected set (always still empty on
any non-panicking run) is returned as `[]` (Go `nil`) when empty and
otherwise deduplicated and sorted. -/
def Schemes (parse : String → Option URLValue) (svc : HTTPServiceExpr) :
    Except String (List String) :=
  (svc.ServiceExpr.Servers.foldl
    (fun acc s =>
      acc.bind (fun schemes =>
        match parse s.URL with
        | some _ => Except.ok schemes
        | none => Except.error "runtime error: invalid memory address or nil pointer dereference"))
    (Except.ok [])).map
    (fun schemes => if schemes = [] then [] else sortStrings schemes.dedup)

/-! ### `FullPaths`, route full paths, `URITemplate`

`(*HTTPServiceExpr).FullPaths` recurses through the parent-service chain
via the route-level `FullPaths` of the parent's canonical endpoint's
first route.  The route-level function lives in a source file that is not
part of the sources here, so it is modelled from the spec (see
`RouteExpr.FullPaths`).  The recursion is made total with fuel; the step
function is factored so that the per-fragment contribution can be named
and reasoned about. -/

/-- Base paths for a non-`"//"` path fragment of `svc`, parameterized by
`recur`, the recursive full-path computation for the parent service:
`Parent() != nil` and the parent's canonical endpoint's first route give
`path.Join` of each of that route's full paths; a parent without a
canonical endpoint or without routes leaves the Go `basePaths` slice
`nil` (here `some []`); no parent gives the single API root path. -/
def basePathsG (recur : HTTPServiceExpr → Option (List String))
    (root : HTTPExpr) (svc : HTTPServiceExpr) : Option (List String) :=
  match svc.Parent root with
  | some par =>
    match par.CanonicalEndpoint with
    | some ca =>
      match ca.Routes with
      | [] => some []
      | r :: _ =>
        ((recur par).map
          (fun bases => bases.map (fun b => httppathClean (pathJoin b r.Path)))).map
          (fun fullPaths => fullPaths.map pathJoin1)
    | none => some []
  | none => some [root.Path]

/-- Contribution of one declared path fragment `p` of `svc` to
`FullPaths`: a `"//"`-prefixed fragment yields its `httppath.Clean`
independently of any hierarchy; any other fragment is joined onto each
base path and cleaned. -/
def fragContributionG (recur : HTTPServiceExpr → Option (List String))
    (root : HTTPExpr) (svc : HTTPServiceExpr) (p : String) : Option (List String) :=
  if beginsWith2Slash p then some [httppathClean p]
  else
    (basePathsG recur root svc).map
      (fun basePaths => basePaths.map (fun base => httppathClean (pathJoin base p)))

/-- One unfolding of `(*HTTPServiceExpr).FullPaths`: no declared paths
give the single (`path.Join`-cleaned) API root path, otherwise the loop
appends each fragment's contribution in declaration order. -/
def fullPathsStep (recur : HTTPServiceExpr → Option (List String))
    (root : HTTPExpr) (svc : HTTPServiceExpr) : Option (List String) :=
  if svc.Paths = [] then some [pathJoin1 root.Path]
  else
    svc.Paths.foldl
      (fun acc p =>
        acc.bind (fun paths => (fragContributionG recur root svc p).map (fun c => paths ++ c)))
      (some [])

/-- `(*HTTPServiceExpr).FullPaths()` with fuel bounding the depth of the
parent chain; `none` means the fuel ran out (the Go recursion would not
terminate within that depth). -/
def HTTPServiceExpr.FullPaths (root : HTTPExpr) : Nat → HTTPServiceExpr → Option (List String)
  | 0, _ => none
  | Nat.succ fuel, svc => fullPathsStep (fun s => HTTPServiceExpr.FullPaths root fuel s) root svc

/-- Modelled from the spec: `(*RouteExpr).FullPaths` (route-level full
paths; defined in a source file of the repository that is not among the
sources here).  Per the spec's glossary the full paths of a route are the
fully composed, cleaned paths of the route: its owning service's full
paths with the route's own path template joined on and cleaned. -/
def RouteExpr.FullPaths (root : HTTPExpr) (fuel : Nat) (owner : HTTPServiceExpr)
    (r : RouteExpr) : Option (List String) :=
  (HTTPServiceExpr.FullPaths root fuel owner).map
    (fun bases => bases.map (fun b => httppathClean (pathJoin b r.Path)))

/-- Per-fragment base paths at a given fuel (the top-level instance of
`basePathsG`). -/
def basePathsFor (root : HTTPExpr) (fuel : Nat) (svc : HTTPServiceExpr) :
    Option (List String) :=
  basePathsG (fun s => HTTPServiceExpr.FullPaths root fuel s) root svc

/-- Per-fragment contribution at a given fuel (the top-level instance of
`fragContributionG`). -/
def fragContribution (root : HTTPExpr) (fuel : Nat) (svc : HTTPServiceExpr) (p : String) :
    Option (List String) :=
  fragContributionG (fun s => HTTPServiceExpr.FullPaths root fuel s) root svc p

/-- `(*HTTPServiceExpr).URITemplate()`: first entry of the full paths of
the canonical endpoint's first route, the empty string when the service
has no canonical endpoint or that endpoint has no route.  (When the
route's full-path list itself is empty the Go code indexes out of range;
that case, like fuel exhaustion, is `none`.) -/
def HTTPServiceExpr.URITemplate (root : HTTPExpr) (fuel : Nat) (svc : HTTPServiceExpr) :
    Option String :=
  match svc.CanonicalEndpoint with
  | none => some ""
  | some ca =>
    match ca.Routes with
    | [] => some ""
    | r :: _ => (RouteExpr.FullPaths root fuel svc r).bind (fun fps => fps.head?)

/-! ### `Validate`

Diagnostics are modelled structurally: each constructor stands for one
`verr.Add(svc, format, arg)` call with its format string, so that
distinct diagnostics are distinct by construction.  The validations of
the `Params`/`Headers` attribute maps and of the service-scoped and
API-global HTTP errors are carried out by code that is not among the
sources here; their merged results are passed in as opaque diagnostic
lists, appended at the positions where the source merges them. -/

/-- A validation diagnostic together with its `%s` argument. -/
inductive Diag
  /-- "Parent service %s not found" -/
  | parentNotFound (n : String)
  /-- "Parent service %s has no canonical endpoint" -/
  | parentNoCanonical (n : String)
  /-- "Parent service %s is also child" -/
  | parentAlsoChild (n : String)
  /-- "Unknown canonical endpoint %s" -/
  | unknownCanonical (n : String)
  /-- a diagnostic produced by one of the merged validations whose code
  is not among the sources here -/
  | other (s : String)
deriving DecidableEq

/-- The message text of a diagnostic (the `fmt` rendering of the format
string and argument recorded by the constructor). -/
def Diag.render : Diag → String
  | .parentNotFound n => "Parent service " ++ n ++ " not found"
  | .parentNoCanonical n => "Parent service " ++ n ++ " has no canonical endpoint"
  | .parentAlsoChild n => "Parent service " ++ n ++ " is also child"
  | .unknownCanonical n => "Unknown canonical endpoint " ++ n
  | .other s => s

/-- `(*HTTPServiceExpr).Validate()`: merges the parameter and header
validations, then checks the parent-service reference (existence,
canonical endpoint, direct 2-cycle), then the canonical endpoint name,
then merges the validations of the service-scoped and API-global HTTP
errors.  All diagnostics are appended in source order into one result;
nothing short-circuits. -/
def HTTPServiceExpr.Validate (root : HTTPExpr)
    (paramsDiags headersDiags errorDiags : List Diag)
    (svc : HTTPServiceExpr) : List Diag :=
  let verr : List Diag := []
  let verr := verr ++ paramsDiags
  let verr := verr ++ headersDiags
  let verr := verr ++
    (if svc.ParentName ≠ "" then
      match root.Service svc.ParentName with
      | none => [Diag.parentNotFound svc.ParentName]
      | some p =>
        (if p.CanonicalEndpoint = none then [Diag.parentNoCanonical svc.ParentName] else []) ++
        (if p.ParentName = svc.Name then [Diag.parentAlsoChild svc.ParentName] else [])
     else [])
  let verr := verr ++
    (if svc.CanonicalEndpointName ≠ "" then
      (if svc.Endpoint svc.CanonicalEndpointName = none then
        [Diag.unknownCanonical svc.CanonicalEndpointName]
      else [])
     else [])
  verr ++ errorDiags

/-! ### The DSL layer (`dsl/api.go`)

The `eval` package (context stack, `Current`, `ReportError`,
`IncompatibleDSL`, `Execute`) is not among the sources here; following
the spec's Context Stack and DSL Executor contracts it is modelled as an
explicit evaluation state holding the current construction target, the
root's API and the diagnostics reported so far.  The builder functions of
`dsl/api.go` are translated against this state. -/

/-- The API expression (the fields used by the verified builders). -/
structure APIExpr where
  Name : String
  Servers : List ServerExpr
deriving DecidableEq

/-- Modelled from the spec: `expr.NewAPIExpr(name, fn)` (defined in a
source file of the repository that is not among the sources here)
creates the API expression carrying the given name; the design function
`fn` is stored for later execution and plays no role in the verified
claims, so it is elided. -/
def NewAPIExpr (name : String) : APIExpr :=
  { Name := name, Servers := [] }

/-- The node currently being defined (the top of the context stack):
the top-level context, an API, a generic service, or some other node
type not modelled further. -/
inductive CurrentCtx
  | top
  | api (a : APIExpr)
  | service (s : ServiceExpr)
  | other
deriving DecidableEq

/-- Modelled from the spec: the evaluation state — the current
construction target (`eval.Current()`), the root's API (`expr.Root.API`,
`none` before any `API` declaration) and the diagnostics reported so
far. -/
structure EvalState where
  current : CurrentCtx
  rootAPI : Option APIExpr
  diagnostics : List String
deriving DecidableEq

/-- Modelled from the spec: `eval.ReportError` appends a diagnostic,
never aborts. -/
def ReportError (msg : String) (st : EvalState) : EvalState :=
  { st with diagnostics := st.diagnostics ++ [msg] }

/-- Modelled from the spec: `eval.IncompatibleDSL` reports the
"incompatible DSL" diagnostic for a builder used against the wrong
current node. -/
def IncompatibleDSL (st : EvalState) : EvalState :=
  ReportError "invalid use of DSL" st

/-- `dsl.API(name, fn)`: empty name reports a diagnostic; a non-top-level
current context reports "incompatible DSL"; otherwise `Root.API` is
assigned `NewAPIExpr(name, fn)` — unconditionally, with no check whether
an API was already declared. -/
def API (name : String) (st : EvalState) : EvalState :=
  if name = "" then ReportError "API first argument cannot be empty" st
  else
    match st.current with
    | CurrentCtx.top => { st with rootAPI := some (NewAPIExpr name) }
    | _ => IncompatibleDSL st

/-- `dsl.Server(url, fn...)`: more than one design function reports a
diagnostic; the optional design function would populate only the new
server's own sub-fields (none is passed anywhere in the verified claims,
so its execution is elided); an empty URL reports a diagnostic; then the
server is appended to the current API's or service's server list — also
after the empty-URL diagnostic — and any other current node reports
"incompatible DSL". -/
def Server (url : String) (fnCount : Nat) (st : EvalState) : EvalState :=
  let st1 := if fnCount > 1 then ReportError "too many arguments given to Server" st else st
  let st2 := if url = "" then ReportError "Server URL cannot be empty" st1 else st1
  match st2.current with
  | CurrentCtx.api a =>
    { st2 with current := CurrentCtx.api { a with Servers := a.Servers ++ [{ URL := url }] } }
  | CurrentCtx.service s =>
    { st2 with current := CurrentCtx.service { s with Servers := s.Servers ++ [{ URL := url }] } }
  | _ => IncompatibleDSL st2

/-! ### Proof-side helper definitions -/

/-- Map an `Option`-valued function over a list, succeeding only when
every element succeeds (used to characterize the `FullPaths` loop:
the per-fragment contributions in declaration order). -/
def optionMapList (f : String → Option (List String)) : List String → Option (List (List String))
  | [] => some []
  | p :: ps => (f p).bind (fun c => (optionMapList f ps).map (fun cs => c :: cs))

/-- The diagnostics contributed by the parent-reference section of
`Validate` (source lines 214–225). -/
def parentBlockOf (root : HTTPExpr) (svc : HTTPServiceExpr) : List Diag :=
  if svc.ParentName ≠ "" then
    match root.Service svc.ParentName with
    | none => [Diag.parentNotFound svc.ParentName]
    | some p =>
      (if p.CanonicalEndpoint = none then [Diag.parentNoCanonical svc.ParentName] else []) ++
      (if p.ParentName = svc.Name then [Diag.parentAlsoChild svc.ParentName] else [])
  else []

/-- The diagnostics contributed by the canonical-endpoint-name section of
`Validate` (source lines 226–230). -/
def canonBlockOf (svc : HTTPServiceExpr) : List Diag :=
  if svc.CanonicalEndpointName ≠ "" then
    (if svc.Endpoint svc.CanonicalEndpointName = none then
      [Diag.unknownCanonical svc.CanonicalEndpointName]
    else [])
  else []

/-! ### Concrete instances used by counterexamples and witnesses -/

/-- A parent service whose canonical endpoint `"show"` has one route with
an empty route path, so that the route's full paths resolve to
`["/a"]`. -/
def svcParentShow : HTTPServiceExpr :=
  { ServiceExpr := { Name := "p", Servers := [] }
    Paths := ["/a"]
    ParentName := ""
    CanonicalEndpointName := ""
    HTTPEndpoints := [{ MethodName := "show", Routes := [{ Method := "GET", Path := "" }] }] }

/-- A child of `svcParentShow` declaring the single fragment
`"/b/{id}"`. -/
def svcChildFrag : HTTPServiceExpr :=
  { ServiceExpr := { Name := "c", Servers := [] }
    Paths := ["/b/{id}"]
    ParentName := "p"
    CanonicalEndpointName := ""
    HTTPEndpoints := [] }

/-- Root holding `svcParentShow` and `svcChildFrag`, API root path
`"/"`. -/
def rootParentChild : HTTPExpr :=
  { Path := "/", Services := [svcParentShow, svcChildFrag] }

/-- A service with a parent and a single `"//"`-prefixed fragment. -/
def svcAbs : HTTPServiceExpr :=
  { ServiceExpr := { Name := "abs", Servers := [] }
    Paths := ["//x"]
    ParentName := "p"
    CanonicalEndpointName := ""
    HTTPEndpoints := [] }

/-- Root holding `svcParentShow` and `svcAbs`. -/
def rootAbs : HTTPExpr :=
  { Path := "/", Services := [svcParentShow, svcAbs] }

/-- A would-be parent service with no endpoints at all (hence no
canonical endpoint). -/
def svcNoEndpoints : HTTPServiceExpr :=
  { ServiceExpr := { Name := "p", Servers := [] }
    Paths := []
    ParentName := ""
    CanonicalEndpointName := ""
    HTTPEndpoints := [] }

/-- A service declaring one ordinary fragment whose parent resolves to
`svcNoEndpoints`. -/
def svcOrphanFrag : HTTPServiceExpr :=
  { ServiceExpr := { Name := "c", Servers := [] }
    Paths := ["/x"]
    ParentName := "p"
    CanonicalEndpointName := ""
    HTTPEndpoints := [] }

/-- Root holding `svcNoEndpoints` and `svcOrphanFrag`. -/
def rootNoCanonical : HTTPExpr :=
  { Path := "/", Services := [svcNoEndpoints, svcOrphanFrag] }

/-- A parentless service declaring one fragment. -/
def svcSolo : HTTPServiceExpr :=
  { ServiceExpr := { Name := "solo", Servers := [] }
    Paths := ["/s"]
    ParentName := ""
    CanonicalEndpointName := ""
    HTTPEndpoints := [] }

/-- Root with API root path `"/"` and no services. -/
def rootSlash : HTTPExpr :=
  { Path := "/", Services := [] }

/-- Root with the non-normalized API root path `"/a/"`. -/
def rootTrail : HTTPExpr :=
  { Path := "/a/", Services := [] }

/-- A service declaring no path fragments of its own. -/
def svcEmptyPaths : HTTPServiceExpr :=
  { ServiceExpr := { Name := "e", Servers := [] }
    Paths := []
    ParentName := ""
    CanonicalEndpointName := ""
    HTTPEndpoints := [] }

/-- Parent whose `"show"` endpoint exists but has zero routes, and whose
own `ParentName` is empty. -/
def svcShowNoRoutes : HTTPServiceExpr :=
  { ServiceExpr := { Name := "p", Servers := [] }
    Paths := []
    ParentName := ""
    CanonicalEndpointName := ""
    HTTPEndpoints := [{ MethodName := "show", Routes := [] }] }

/-- Child referencing `svcShowNoRoutes` as parent. -/
def svcChildOfNoRoutes : HTTPServiceExpr :=
  { ServiceExpr := { Name := "c", Servers := [] }
    Paths := []
    ParentName := "p"
    CanonicalEndpointName := ""
    HTTPEndpoints := [] }

/-- Root holding `svcShowNoRoutes` and `svcChildOfNoRoutes`. -/
def rootShowNoRoutes : HTTPExpr :=
  { Path := "/", Services := [svcShowNoRoutes, svcChildOfNoRoutes] }

/-- Parent of the 2-cycle: no endpoints and `ParentName` pointing back at
the child `"c"`. -/
def svcCycleParent : HTTPServiceExpr :=
  { ServiceExpr := { Name := "p", Servers := [] }
    Paths := []
    ParentName := "c"
    CanonicalEndpointName := ""
    HTTPEndpoints := [] }

/-- Child of the 2-cycle, parented at `"p"`. -/
def svcCycleChild : HTTPServiceExpr :=
  { ServiceExpr := { Name := "c", Servers := [] }
    Paths := []
    ParentName := "p"
    CanonicalEndpointName := ""
    HTTPEndpoints := [] }

/-- Root holding the two services of the 2-cycle. -/
def rootCycle : HTTPExpr :=
  { Path := "/", Services := [svcCycleParent, svcCycleChild] }

/-- A parse function under which exactly `"http://a"` parses, yielding
scheme `"http"` (models the successful `url.Parse` of that URL). -/
def parseHttp : String → Option URLValue :=
  fun s => if s = "http://a" then some { Scheme := "http" } else none

/-- A service whose backing service has the single server
`"http://a"`. -/
def svcHttp : HTTPServiceExpr :=
  { ServiceExpr := { Name := "svc", Servers := [{ URL := "http://a" }] }
    Paths := []
    ParentName := ""
    CanonicalEndpointName := ""
    HTTPEndpoints := [] }

/-- A parse function under which every URL parses, with scheme the part
before the first `':'` (enough for the concrete witnesses). -/
def parseAll : String → Option URLValue :=
  fun s => some { Scheme := (splitOnChar ':' s).headI }

/-- A service with two servers, both of which parse under `parseAll`. -/
def svcTwoServers : HTTPServiceExpr :=
  { ServiceExpr := { Name := "two", Servers := [{ URL := "http://a" }, { URL := "https://b" }] }
    Paths := []
    ParentName := ""
    CanonicalEndpointName := ""
    HTTPEndpoints := [] }

/-- The evaluation state at the start of an evaluation: top-level
context, no API, no diagnostics. -/
def stTop : EvalState :=
  { current := CurrentCtx.top, rootAPI := none, diagnostics := [] }

/-- An evaluation state whose current node is an API with one server
already appended. -/
def stApiCtx : EvalState :=
  { current := CurrentCtx.api { Name := "adder", Servers := [{ URL := "https://a" }] }
    rootAPI := some { Name := "adder", Servers := [{ URL := "https://a" }] }
    diagnostics := [] }

/-! ## Theorems -/

/-! ### Helper lemmas about the `FullPaths` loop -/

/-- Folding the fragment loop from a failed accumulator stays failed. -/
theorem foldl_contrib_none (g : String → Option (List String)) (ps : List String) :
    ps.foldl (fun acc p => acc.bind (fun paths => (g p).map (fun c => paths ++ c))) none
      = none := by
  induction ps with
  | nil => rfl
  | cons p ps ih => exact ih

/-- The fragment loop of `FullPaths` computes the ordered concatenation
of the per-fragment contributions. -/
theorem foldl_contrib_char (g : String → Option (List String)) :
    ∀ (ps : List String) (acc : List String),
      ps.foldl (fun a p => a.bind (fun paths => (g p).map (fun c => paths ++ c))) (some acc)
        = (optionMapList g ps).map (fun cs => acc ++ cs.flatten) := by
  intro ps
  induction ps with
  | nil => intro acc; simp [optionMapList]
  | cons p ps ih =>
    intro acc
    simp only [List.foldl_cons, optionMapList, Option.some_bind]
    cases hg : g p with
    | none => simp [hg, foldl_contrib_none]
    | some c =>
      simp only [Option.map_some', Option.some_bind]
      rw [ih (acc ++ c)]
      cases hms : optionMapList g ps with
      | none => rfl
      | some cs => simp [List.append_assoc]

/-- A successful `optionMapList` run has one entry per input. -/
theorem optionMapList_length (g : String → Option (List String)) :
    ∀ (ps : List String) (cs : List (List String)),
      optionMapList g ps = some cs → cs.length = ps.length := by
  intro ps
  induction ps with
  | nil =>
    intro cs h
    simp only [optionMapList, Option.some.injEq] at h
    subst h; rfl
  | cons p ps ih =>
    intro cs h
    simp only [optionMapList] at h
    rcases Option.bind_eq_some.mp h with ⟨c, _, hm⟩
    rcases Option.map_eq_some'.mp hm with ⟨cs2, hcs2, hc⟩
    subst hc
    simp [List.length_cons, ih cs2 hcs2]

/-- Every entry of a successful `optionMapList` run is produced by one of
the inputs. -/
theorem optionMapList_mem (g : String → Option (List String)) :
    ∀ (ps : List String) (cs : List (List String)),
      optionMapList g ps = some cs → ∀ c ∈ cs, ∃ p, p ∈ ps ∧ g p = some c := by
  intro ps
  induction ps with
  | nil =>
    intro cs h
    simp only [optionMapList, Option.some.injEq] at h
    subst h; intro c hc; cases hc
  | cons p ps ih =>
    intro cs h
    simp only [optionMapList] at h
    rcases Option.bind_eq_some.mp h with ⟨c0, hc0, hm⟩
    rcases Option.map_eq_some'.mp hm with ⟨cs2, hcs2, hc⟩
    subst hc
    intro c hc
    rcases List.mem_cons.mp hc with h1 | h1
    · exact ⟨p, List.mem_cons_self p ps, h1 ▸ hc0⟩
    · rcases ih cs2 hcs2 c h1 with ⟨q, hq, hgq⟩
      exact ⟨q, List.mem_cons_of_mem p hq, hgq⟩

/-- One unfolding of the fueled `FullPaths`. -/
theorem fullPaths_succ (root : HTTPExpr) (fuel : Nat) (svc : HTTPServiceExpr) :
    HTTPServiceExpr.FullPaths root (fuel + 1) svc
      = fullPathsStep (fun s => HTTPServiceExpr.FullPaths root fuel s) root svc := rfl

/-- With no declared fragments, `FullPaths` is the cleaned API root
path. -/
theorem fullPaths_nilPaths (root : HTTPExpr) (fuel : Nat) (svc : HTTPServiceExpr)
    (h : svc.Paths = []) :
    HTTPServiceExpr.FullPaths root (fuel + 1) svc = some [pathJoin1 root.Path] := by
  rw [fullPaths_succ]
  unfold fullPathsStep
  rw [if_pos h]

/-- With declared fragments, `fullPathsStep` is the join of the
per-fragment contributions taken in declaration order. -/
theorem fullPathsStep_eq (recur : HTTPServiceExpr → Option (List String))
    (root : HTTPExpr) (svc : HTTPServiceExpr) (h : svc.Paths ≠ []) :
    fullPathsStep recur root svc
      = (optionMapList (fragContributionG recur root svc) svc.Paths).map (fun cs => cs.flatten) := by
  unfold fullPathsStep
  rw [if_neg h, foldl_contrib_char]
  cases optionMapList (fragContributionG recur root svc) svc.Paths <;> simp

/-- A fragment of a parentless service contributes exactly one path. -/
theorem fragContribution_noParent (recur : HTTPServiceExpr → Option (List String))
    (root : HTTPExpr) (svc : HTTPServiceExpr) (p : String) (h : svc.Parent root = none) :
    ∃ x, fragContributionG recur root svc p = some [x] := by
  unfold fragContributionG basePathsG
  rw [h]
  by_cases hb : beginsWith2Slash p = true
  · rw [if_pos hb]; exact ⟨httppathClean p, rfl⟩
  · rw [if_neg hb]; exact ⟨httppathClean (pathJoin root.Path p), rfl⟩

/-- `FullPaths` of a service declaring exactly one fragment is that
fragment's contribution. -/
theorem fullPaths_single (root : HTTPExpr) (fuel : Nat) (svc : HTTPServiceExpr) (p : String)
    (hp : svc.Paths = [p]) :
    HTTPServiceExpr.FullPaths root (fuel + 1) svc = fragContribution root fuel svc p := by
  rw [fullPaths_succ]
  unfold fullPathsStep
  rw [hp, if_neg (List.cons_ne_nil p [])]
  simp only [List.foldl_cons, List.foldl_nil, Option.some_bind]
  cases h : fragContributionG (fun s => HTTPServiceExpr.FullPaths root fuel s) root svc p with
  | none => simp [fragContribution, h]
  | some c => simp [fragContribution, h]

/-- Membership in a one-element conditional list. -/
theorem mem_ite_singleton (c : Prop) [Decidable c] (d e : Diag) :
    (d ∈ (if c then [e] else [])) ↔ (c ∧ d = e) := by
  by_cases h : c <;> simp [h]

/-! ### C1 — `Schemes` collects from successfully parsed URLs (code bug) -/

/-- C1: the claim says a service whose server URLs parse successfully
yields the sorted set of those URLs' schemes.  The code records a scheme
only in the `err != nil` branch of `url.Parse` (where the parsed URL is
nil), so for the service with the single server `"http://a"`, whose URL
parses successfully with scheme `"http"`, `Schemes` collects nothing and
returns Go `nil` — not `["http"]`.  This contradicts the function's own
documentation ("Schemes returns the service endpoint HTTP schemes"): the
condition is inverted in the source. -/
theorem schemes_parse_bug_eval :
    Schemes parseHttp svcHttp = Except.ok [] ∧
    Schemes parseHttp svcHttp ≠ Except.ok ["http"] := by
  have h0 : Schemes parseHttp svcHttp = Except.ok [] := rfl
  refine ⟨h0, fun h => ?_⟩
  rw [h0] at h
  exact absurd (Except.ok.inj h) (by decide)

/-! ### C2 — a second `API` declaration (corrected) -/

/-- C2 counterexample: starting from the top-level state, `API "x"` then
`API "y"` (both non-empty) leaves no diagnostic and replaces the root's
API with the new one — the claim says a diagnostic is reported and the
first API is kept. -/
theorem api_second_overwrites_cex :
    (API "y" (API "x" stTop)).diagnostics = [] ∧
    (API "x" stTop).rootAPI = some (NewAPIExpr "x") ∧
    (API "y" (API "x" stTop)).rootAPI = some (NewAPIExpr "y") ∧
    NewAPIExpr "y" ≠ NewAPIExpr "x" := by decide

/-- C2 (amended): after a first successful `API` declaration, a second
`API` call with a non-empty name at the top level reports no diagnostic
and overwrites the root's API with the newly created one. -/
theorem api_second_overwrites (st : EvalState) (n1 n2 : String)
    (h1 : n1 ≠ "") (h2 : n2 ≠ "") (hc : st.current = CurrentCtx.top) :
    (API n2 (API n1 st)).rootAPI = some (NewAPIExpr n2) ∧
    (API n2 (API n1 st)).diagnostics = st.diagnostics := by
  have e1 : API n1 st = { st with rootAPI := some (NewAPIExpr n1) } := by
    unfold API
    rw [if_neg h1, hc]
  have e2 : API n2 (API n1 st) = { st with rootAPI := some (NewAPIExpr n2) } := by
    rw [e1]
    unfold API
    rw [if_neg h2]
    have : ({ st with rootAPI := some (NewAPIExpr n1) } : EvalState).current
        = CurrentCtx.top := hc
    rw [this]
  rw [e2]
  exact ⟨rfl, rfl⟩

/-- C2 witness: the amended theorem applied at the concrete top-level
start state and names `"a"`, `"b"`. -/
theorem api_second_overwrites_witness :
    (API "b" (API "a" stTop)).rootAPI = some (NewAPIExpr "b") ∧
    (API "b" (API "a" stTop)).diagnostics = stTop.diagnostics :=
  api_second_overwrites stTop "a" "b" (by decide) (by decide) rfl

/-! ### C6 — `FullPaths` with no declared fragments (corrected) -/

/-- C6 counterexample: with the API root path `"/a/"` (not in cleaned
form), a service with no declared fragments gets `["/a"]` — the
`path.Join`-cleaned root path — which does not contain the API root path
itself, contradicting the claim as stated. -/
theorem fullPaths_noPaths_cex :
    HTTPServiceExpr.FullPaths rootTrail 1 svcEmptyPaths = some ["/a"] ∧
    ¬ ("/a/" ∈ (["/a"] : List String)) := by decide

/-- C6 (amended): a service with no declared fragments gets the single
`path.Join`-cleaned API root path; in particular with root path `"/"`
exactly `["/"]`. -/
theorem fullPaths_noPaths (root : HTTPExpr) (fuel : Nat) (svc : HTTPServiceExpr)
    (h : svc.Paths = []) :
    HTTPServiceExpr.FullPaths root (fuel + 1) svc = some [pathJoin1 root.Path] ∧
    (root.Path = "/" → HTTPServiceExpr.FullPaths root (fuel + 1) svc = some ["/"]) := by
  refine ⟨fullPaths_nilPaths root fuel svc h, fun hr => ?_⟩
  rw [fullPaths_nilPaths root fuel svc h, hr]
  rfl

/-- C6 witness: the amended theorem at root path `"/"` and a concrete
service with no fragments. -/
theorem fullPaths_noPaths_witness :
    HTTPServiceExpr.FullPaths rootSlash 1 svcEmptyPaths = some ["/"] :=
  (fullPaths_noPaths rootSlash 0 svcEmptyPaths rfl).2 rfl

/-! ### C9 — `Server("")` reports and still appends (confirmed) -/

/-- C9: with the current node an API or a service, `Server ""` reports
the empty-URL diagnostic and nevertheless appends the server to the
current node's server list — the mutation is not rolled back. -/
theorem server_empty_url_appends (st : EvalState) :
    (∀ a, st.current = CurrentCtx.api a →
      Server "" 0 st =
        { st with
          current := CurrentCtx.api { a with Servers := a.Servers ++ [{ URL := "" }] }
          diagnostics := st.diagnostics ++ ["Server URL cannot be empty"] }) ∧
    (∀ s, st.current = CurrentCtx.service s →
      Server "" 0 st =
        { st with
          current := CurrentCtx.service { s with Servers := s.Servers ++ [{ URL := "" }] }
          diagnostics := st.diagnostics ++ ["Server URL cannot be empty"] }) := by
  constructor <;> intro x hx <;> simp [Server, ReportError, hx]

/-- C9 witness: the theorem at a concrete API-context state with one
server already present. -/
theorem server_empty_url_appends_witness :
    Server "" 0 stApiCtx =
      { stApiCtx with
        current := CurrentCtx.api
          { Name := "adder", Servers := [{ URL := "https://a" }, { URL := "" }] }
        diagnostics := ["Server URL cannot be empty"] } := by
  have h := (server_empty_url_appends stApiCtx).1
    { Name := "adder", Servers := [{ URL := "https://a" }] } rfl
  exact h.trans (by decide)

/-! ### C10 — `Schemes` on fully parseable servers (confirmed) -/

/-- Folding the scheme loop from a failed (panicked) accumulator stays
failed. -/
theorem schemes_step_absorb (parse : String → Option URLValue) (l : List ServerExpr)
    (e : String) :
    l.foldl (fun acc s => acc.bind (fun schemes =>
        match parse s.URL with
        | some _ => Except.ok schemes
        | none =>
          Except.error "runtime error: invalid memory address or nil pointer dereference"))
      (Except.error e : Except String (List String)) = Except.error e := by
  induction l with
  | nil => rfl
  | cons s l ih => exact ih

/-- When every server URL parses, the scheme loop leaves the collected
set untouched. -/
theorem schemes_all_ok_aux (parse : String → Option URLValue) :
    ∀ (l : List ServerExpr) (acc : List String),
      (∀ s ∈ l, (parse s.URL).isSome = true) →
      l.foldl (fun acc s => acc.bind (fun schemes =>
          match parse s.URL with
          | some _ => Except.ok schemes
          | none =>
            Except.error "runtime error: invalid memory address or nil pointer dereference"))
        (Except.ok acc : Except String (List String)) = Except.ok acc := by
  intro l
  induction l with
  | nil => intro acc _; rfl
  | cons s l ih =>
    intro acc h
    rcases Option.isSome_iff_exists.mp (h s (List.mem_cons_self s l)) with ⟨u, hu⟩
    simp only [List.foldl_cons, Option.some_bind, hu]
    exact ih acc (fun t ht => h t (List.mem_cons_of_mem s ht))

/-- When some server URL fails to parse, the scheme loop panics. -/
theorem schemes_fail_aux (parse : String → Option URLValue) :
    ∀ (l : List ServerExpr) (acc : List String),
      (∃ s ∈ l, parse s.URL = none) →
      ∃ e, l.foldl (fun acc s => acc.bind (fun schemes =>
          match parse s.URL with
          | some _ => Except.ok schemes
          | none =>
            Except.error "runtime error: invalid memory address or nil pointer dereference"))
        (Except.ok acc : Except String (List String)) = Except.error e := by
  intro l
  induction l with
  | nil => intro acc h; rcases h with ⟨s, hs, _⟩; cases hs
  | cons s l ih =>
    intro acc h
    cases hg : parse s.URL with
    | none =>
      refine ⟨"runtime error: invalid memory address or nil pointer dereference", ?_⟩
      simp only [List.foldl_cons, hg]
      exact schemes_step_absorb parse l _
    | some u =>
      rcases h with ⟨t, ht, hn⟩
      rcases List.mem_cons.mp ht with h1 | h1
      · rw [h1] at hn; rw [hg] at hn; cases hn
      · simp only [List.foldl_cons, hg]
        exact ih acc ⟨t, h1, hn⟩

/-- C10: when every server URL attached to the service parses
successfully, `Schemes` returns nothing (Go `nil`): the collected set is
never populated, because a scheme is recorded only in the branch taken
when parsing fails — and on that branch the nil parsed URL makes the read
panic, so a failing URL yields a runtime error rather than a scheme. -/
theorem schemes_all_parse_ok (parse : String → Option URLValue) (svc : HTTPServiceExpr) :
    ((∀ s ∈ svc.ServiceExpr.Servers, (parse s.URL).isSome = true) →
      Schemes parse svc = Except.ok []) ∧
    ((∃ s ∈ svc.ServiceExpr.Servers, parse s.URL = none) →
      ∃ e, Schemes parse svc = Except.error e) := by
  constructor
  · intro h
    unfold Schemes
    rw [schemes_all_ok_aux parse svc.ServiceExpr.Servers [] h]
    rfl
  · intro h
    rcases schemes_fail_aux parse svc.ServiceExpr.Servers [] h with ⟨e, he⟩
    refine ⟨e, ?_⟩
    unfold Schemes
    rw [he]
    rfl

/-- C10 witness: a service with two servers, both of whose URLs parse
(with schemes `"http"` and `"https"`), yields the empty result. -/
theorem schemes_all_parse_ok_witness :
    Schemes parseAll svcTwoServers = Except.ok [] :=
  (schemes_all_parse_ok parseAll svcTwoServers).1 (by decide)

/-! ### C3 — shape of `FullPaths` (corrected) -/

/-- C3 counterexample: `svcOrphanFrag` declares the fragment `"/x"` and
names the parent `"p"`, which exists but has no canonical endpoint; the
fragment's base-path set is then empty and `FullPaths` returns the empty
list, contradicting the claimed unconditional non-emptiness (the source
itself notes these conditions are only guaranteed after DSL
validation). -/
theorem fullPaths_nonempty_cex :
    HTTPServiceExpr.FullPaths rootNoCanonical 1 svcOrphanFrag = some [] := by decide

/-- C3 (amended): `FullPaths` returns the per-fragment contributions
concatenated in declaration order (one contribution per declared
fragment — the cartesian expansion over that fragment's base paths, no
deduplication); it is non-empty whenever the service declares no
fragments or has no resolvable parent, but may be empty when a parent
resolves without a canonical endpoint route. -/
theorem fullPaths_shape (root : HTTPExpr) (fuel : Nat) (svc : HTTPServiceExpr)
    (ps : List String)
    (h : HTTPServiceExpr.FullPaths root (fuel + 1) svc = some ps) :
    (svc.Paths = [] → ps = [pathJoin1 root.Path]) ∧
    (svc.Paths ≠ [] → ∃ cs,
      optionMapList (fragContribution root fuel svc) svc.Paths = some cs ∧
      ps = cs.flatten ∧ cs.length = svc.Paths.length) ∧
    (svc.Parent root = none → ps ≠ []) := by
  by_cases hp : svc.Paths = []
  · rw [fullPaths_nilPaths root fuel svc hp] at h
    have hps : ps = [pathJoin1 root.Path] := (Option.some.inj h).symm
    refine ⟨fun _ => hps, fun hne => absurd hp hne, fun _ => ?_⟩
    rw [hps]
    exact List.cons_ne_nil _ _
  · rw [fullPaths_succ, fullPathsStep_eq _ root svc hp] at h
    rcases Option.map_eq_some'.mp h with ⟨cs, hcs, hflat⟩
    refine ⟨fun he => absurd he hp,
      fun _ => ⟨cs, hcs, hflat.symm, optionMapList_length _ svc.Paths cs hcs⟩,
      fun hpar hnil => ?_⟩
    have hlen := optionMapList_length _ svc.Paths cs hcs
    cases hq : svc.Paths with
    | nil => exact hp hq
    | cons q qs =>
      cases cs with
      | nil =>
        rw [hq] at hlen
        exact absurd hlen.symm (by simp)
      | cons c0 rest =>
        rcases optionMapList_mem _ svc.Paths _ hcs c0 (List.mem_cons_self c0 rest)
          with ⟨pp, _, hgp⟩
        rcases fragContribution_noParent (fun s => HTTPServiceExpr.FullPaths root fuel s)
          root svc pp hpar with ⟨x, hx⟩
        have hc0 : c0 = [x] := Option.some.inj (hgp.symm.trans hx)
        have : (c0 :: rest).flatten = [] := hflat.trans hnil
        rw [hc0] at this
        simp at this

/-- C3 witness: the amended theorem applied to a parentless service with
the single fragment `"/s"` and root path `"/"`. -/
theorem fullPaths_shape_witness :
    (["/s"] : List String) ≠ [] ∧
    (∃ cs, optionMapList (fragContribution rootSlash 0 svcSolo) svcSolo.Paths = some cs ∧
      (["/s"] : List String) = cs.flatten ∧ cs.length = svcSolo.Paths.length) := by
  have h := fullPaths_shape rootSlash 0 svcSolo ["/s"] (by decide)
  exact ⟨h.2.2 (by decide), h.2.1 (by decide)⟩

/-! ### C4 — joining a fragment onto parent paths (confirmed) -/

/-- C4: a single declared non-`"//"` fragment is joined onto the
(`path.Join`-cleaned) full paths of the parent's canonical endpoint's
first declared route when the parent resolves — the route full paths
themselves recurse up the parent chain — and onto the API root path when
there is no parent. -/
theorem fullPaths_parent_join (root : HTTPExpr) (fuel : Nat) (svc : HTTPServiceExpr)
    (p : String) (hp : svc.Paths = [p]) (hnp : beginsWith2Slash p = false) :
    (∀ par ca r rs fps,
      svc.Parent root = some par →
      par.CanonicalEndpoint = some ca →
      ca.Routes = r :: rs →
      RouteExpr.FullPaths root fuel par r = some fps →
      HTTPServiceExpr.FullPaths root (fuel + 1) svc
        = some ((fps.map pathJoin1).map (fun base => httppathClean (pathJoin base p)))) ∧
    (svc.Parent root = none →
      HTTPServiceExpr.FullPaths root (fuel + 1) svc
        = some [httppathClean (pathJoin root.Path p)]) := by
  constructor
  · intro par ca r rs fps hpar hca hr hfp
    rw [fullPaths_single root fuel svc p hp]
    have hfp2 : (HTTPServiceExpr.FullPaths root fuel par).map
        (fun bases => bases.map (fun b => httppathClean (pathJoin b r.Path))) = some fps := hfp
    unfold fragContribution fragContributionG basePathsG
    simp [hnp, hpar, hca, hr, hfp2]
  · intro hpar
    rw [fullPaths_single root fuel svc p hp]
    unfold fragContribution fragContributionG basePathsG
    simp [hnp, hpar]

/-- C4 witness: parent `"p"` with canonical endpoint route resolving to
`["/a"]`, child declaring `"/b/{id}"`: the child's full paths are exactly
`["/a/b/{id}"]`. -/
theorem fullPaths_parent_join_witness :
    HTTPServiceExpr.FullPaths rootParentChild 2 svcChildFrag = some ["/a/b/{id}"] := by
  have h := (fullPaths_parent_join rootParentChild 1 svcChildFrag "/b/{id}"
      (by decide) (by decide)).1
    svcParentShow { MethodName := "show", Routes := [{ Method := "GET", Path := "" }] }
    { Method := "GET", Path := "" } [] ["/a"]
    (by decide) (by decide) (by decide) (by decide)
  exact h.trans (by decide)

/-! ### C5 — the `"//"` absolute-override fragment (confirmed) -/

/-- C5: a declared fragment beginning with `"//"` contributes exactly its
`httppath.Clean`, independently of the API root path, the parent and any
hierarchy (the theorem holds for every root and service); in particular
`"//x"` contributes `"/x"`. -/
theorem fullPaths_absolute_override (root : HTTPExpr) (fuel : Nat) (svc : HTTPServiceExpr)
    (p : String) (h2 : beginsWith2Slash p = true) :
    fragContribution root fuel svc p = some [httppathClean p] ∧
    (svc.Paths = [p] →
      HTTPServiceExpr.FullPaths root (fuel + 1) svc = some [httppathClean p]) ∧
    httppathClean "//x" = "/x" := by
  have hfrag : fragContribution root fuel svc p = some [httppathClean p] := by
    unfold fragContribution fragContributionG
    simp [h2]
  refine ⟨hfrag, fun hp => ?_, by decide⟩
  rw [fullPaths_single root fuel svc p hp, hfrag]

/-- C5 witness: the service `svcAbs` declares `"//x"` and has a resolvable
parent; its full paths are `["/x"]` regardless. -/
theorem fullPaths_absolute_override_witness :
    HTTPServiceExpr.FullPaths rootAbs 1 svcAbs = some ["/x"] := by
  have h := (fullPaths_absolute_override rootAbs 0 svcAbs "//x" (by decide)).2.1 (by decide)
  exact h.trans (by decide)

/-! ### C7 — `URITemplate` (confirmed) -/

/-- C7: the canonical endpoint is the endpoint named by
`CanonicalEndpointName`, defaulting to `"show"`; `URITemplate` is the
empty string when there is no canonical endpoint or it has no routes, and
otherwise the first entry of the full paths of the canonical endpoint's
first route. -/
theorem uriTemplate_spec (root : HTTPExpr) (fuel : Nat) (svc : HTTPServiceExpr) :
    svc.CanonicalEndpoint
      = svc.Endpoint
          (if svc.CanonicalEndpointName = "" then "show" else svc.CanonicalEndpointName) ∧
    (svc.CanonicalEndpoint = none → svc.URITemplate root fuel = some "") ∧
    (∀ ca, svc.CanonicalEndpoint = some ca → ca.Routes = [] →
      svc.URITemplate root fuel = some "") ∧
    (∀ ca r rs x xs, svc.CanonicalEndpoint = some ca → ca.Routes = r :: rs →
      RouteExpr.FullPaths root fuel svc r = some (x :: xs) →
      svc.URITemplate root fuel = some x) := by
  refine ⟨rfl, fun h => ?_, fun ca hca hr => ?_, fun ca r rs x xs hca hr hfp => ?_⟩
  · unfold HTTPServiceExpr.URITemplate
    rw [h]
  · unfold HTTPServiceExpr.URITemplate
    simp [hca, hr]
  · unfold HTTPServiceExpr.URITemplate
    simp [hca, hr, hfp]

/-- C7 witness: the service `svcParentShow` (canonical endpoint `"show"`,
one route) has URI template `"/a"`. -/
theorem uriTemplate_spec_witness :
    HTTPServiceExpr.URITemplate rootParentChild 1 svcParentShow = some "/a" := by
  exact (uriTemplate_spec rootParentChild 1 svcParentShow).2.2.2
    { MethodName := "show", Routes := [{ Method := "GET", Path := "" }] }
    { Method := "GET", Path := "" } [] "/a" []
    (by decide) (by decide) (by decide)

/-! ### C8 — `Validate` parent diagnostics (corrected) -/

/-- `Validate` with empty opaque diagnostic lists is the parent-reference
block followed by the canonical-name block. -/
theorem validate_decomp (root : HTTPExpr) (svc : HTTPServiceExpr) :
    svc.Validate root [] [] [] = parentBlockOf root svc ++ canonBlockOf svc := by
  unfold HTTPServiceExpr.Validate parentBlockOf canonBlockOf
  simp

/-- Everything in the canonical-name block is an unknown-canonical
diagnostic. -/
theorem mem_canonBlock (svc : HTTPServiceExpr) (d : Diag) (h : d ∈ canonBlockOf svc) :
    d = Diag.unknownCanonical svc.CanonicalEndpointName := by
  unfold canonBlockOf at h
  split at h
  · split at h
    · simpa using h
    · cases h
  · cases h

/-- C8 counterexample: the parent `"p"` of `svcChildOfNoRoutes` has a
canonical endpoint (`"show"`) with zero routes — it "lacks a canonical
endpoint with at least one route" in the claim's sense — yet `Validate`
yields no diagnostic at all: the source tests only
`CanonicalEndpoint() == nil` and never inspects the routes. -/
theorem validate_parent_routes_cex :
    ((rootShowNoRoutes.Service "p").bind HTTPServiceExpr.CanonicalEndpoint
      = some { MethodName := "show", Routes := [] }) ∧
    svcChildOfNoRoutes.Validate rootShowNoRoutes [] [] [] = [] := by decide

/-- C8 (amended): for a service with non-empty `ParentName`, `Validate`
adds "Parent service %s not found" exactly when no service with that name
exists; when the parent exists it adds "Parent service %s has no
canonical endpoint" exactly when the parent has no canonical endpoint
(the routes of an existing canonical endpoint are not inspected), and
adds "Parent service %s is also child" exactly when the parent's declared
`ParentName` equals this service's name; all are aggregated into the one
returned list without short-circuiting. -/
theorem validate_parent_diags (root : HTTPExpr) (svc : HTTPServiceExpr)
    (hne : svc.ParentName ≠ "") :
    (Diag.parentNotFound svc.ParentName ∈ svc.Validate root [] [] [] ↔
      root.Service svc.ParentName = none) ∧
    (∀ p, root.Service svc.ParentName = some p →
      ((Diag.parentNoCanonical svc.ParentName ∈ svc.Validate root [] [] []) ↔
        p.CanonicalEndpoint = none) ∧
      ((Diag.parentAlsoChild svc.ParentName ∈ svc.Validate root [] [] []) ↔
        p.ParentName = svc.Name)) := by
  have hpb : parentBlockOf root svc =
      (match root.Service svc.ParentName with
        | none => [Diag.parentNotFound svc.ParentName]
        | some p =>
          (if p.CanonicalEndpoint = none then [Diag.parentNoCanonical svc.ParentName]
           else []) ++
          (if p.ParentName = svc.Name then [Diag.parentAlsoChild svc.ParentName]
           else [])) := by
    unfold parentBlockOf
    rw [if_pos hne]
  rw [validate_decomp, hpb]
  constructor
  · cases hs : root.Service svc.ParentName with
    | none => simp
    | some p =>
      simp only [List.mem_append, mem_ite_singleton]
      constructor
      · rintro ((⟨_, hd⟩ | ⟨_, hd⟩) | h3)
        · exact Diag.noConfusion hd
        · exact Diag.noConfusion hd
        · exact absurd (mem_canonBlock svc _ h3) (fun hd => Diag.noConfusion hd)
      · intro hnone
        cases hnone
  · intro p hp
    rw [hp]
    constructor
    · simp only [List.mem_append, mem_ite_singleton]
      constructor
      · rintro ((⟨h1, _⟩ | ⟨_, hd⟩) | h3)
        · exact h1
        · exact Diag.noConfusion hd
        · exact absurd (mem_canonBlock svc _ h3) (fun hd => Diag.noConfusion hd)
      · intro h1
        exact Or.inl (Or.inl ⟨h1, trivial⟩)
    · simp only [List.mem_append, mem_ite_singleton]
      constructor
      · rintro ((⟨_, hd⟩ | ⟨h1, _⟩) | h3)
        · exact Diag.noConfusion hd
        · exact h1
        · exact absurd (mem_canonBlock svc _ h3) (fun hd => Diag.noConfusion hd)
      · intro h1
        exact Or.inl (Or.inr ⟨h1, trivial⟩)

/-- C8 witness: in the 2-cycle `rootCycle` the parent `"p"` exists, has
no canonical endpoint and names the child back — both diagnostics are
present in the one result, and the not-found diagnostic is absent. -/
theorem validate_parent_diags_witness :
    Diag.parentNoCanonical "p" ∈ svcCycleChild.Validate rootCycle [] [] [] ∧
    Diag.parentAlsoChild "p" ∈ svcCycleChild.Validate rootCycle [] [] [] ∧
    Diag.parentNotFound "p" ∉ svcCycleChild.Validate rootCycle [] [] [] := by
  have h := validate_parent_diags rootCycle svcCycleChild (by decide)
  have h2 := h.2 svcCycleParent (by decide)
  refine ⟨h2.1.mpr (by decide), h2.2.mpr (by decide), fun hm => ?_⟩
  exact absurd (h.1.mp hm) (by decide)

end Goa
